import Mathlib

/-!
Verification of the streaming generation orchestrator of NovelSeek-Pro-PC
(file src/src-tauri/src/commands/stream.rs).

A Rust str is modelled as a Lean String / List Char; byte positions and byte
lengths are recovered through Char.utf8Size, which agrees with the UTF-8 byte
count of each scalar value.  Raw HTTP body chunks, which need not be valid
UTF-8, are modelled as List Nat with each element a byte value.
-/

namespace NovelSeek

/-! ## Byte-level string primitives (model of Rust str byte indexing)

Rust strings are always valid UTF-8, so a position is a char boundary exactly
when it is the byte length of some prefix of the char sequence.  byteLen
models str::len (the UTF-8 byte length, not the char count). -/

def byteLen (cs : List Char) : Nat := (cs.map Char.utf8Size).sum

/-- Model of str::is_char_boundary for a valid UTF-8 string given as its
char sequence: i is a boundary iff it is the byte length of a prefix. -/
def is_char_boundary (cs : List Char) (i : Nat) : Bool :=
  match cs with
  | [] => i == 0
  | c :: rest => i == 0 || (c.utf8Size ≤ i && is_char_boundary rest (i - c.utf8Size))

/-- Model of the loop in get_last_n_chars:
while start > 0 and not is_char_boundary(start), start -= 1. -/
def findStart (cs : List Char) : Nat → Nat
  | 0 => 0
  | start + 1 => if is_char_boundary cs (start + 1) then start + 1 else findStart cs start

/-- Model of the byte slice s[i..] at a char boundary i. -/
def byteDrop (cs : List Char) (i : Nat) : List Char :=
  match cs with
  | [] => []
  | c :: rest => if i = 0 then c :: rest else byteDrop rest (i - c.utf8Size)

/-- Translation of get_last_n_chars from stream.rs: despite the name, n
bounds the BYTE length; when the string is longer than n bytes the start
index len - n is moved down to the nearest char boundary and the byte
slice from there is returned. -/
def get_last_n_chars (s : List Char) (n : Nat) : List Char :=
  if byteLen s ≤ n then s
  else byteDrop s (findStart s (byteLen s - n))

def get_last_n_chars_str (s : String) (n : Nat) : String :=
  String.mk (get_last_n_chars s.data n)

/-! ## find_last_chapter_number

Translation of find_last_chapter_number from stream.rs.  The Rust code runs
the regex 第(\d+)章 over the content and takes the maximum capture that
parses as a u32.  A match is an occurrence of the char 第 immediately
followed by a nonempty maximal digit run immediately followed by 章; matches
of this shape can never overlap, and a capture parses as u32 exactly when it
is a run of ASCII digits with value below 2 to the 32 (non-ASCII Unicode
digits are matched by the regex but always fail the u32 parse, contributing
nothing, so scanning for ASCII digit runs yields the same maximum). -/

def isAsciiDigit (c : Char) : Bool := '0' ≤ c && c ≤ '9'

def takeDigits : List Char → List Char × List Char
  | [] => ([], [])
  | c :: rest =>
    if isAsciiDigit c then
      let (ds, r) := takeDigits rest
      (c :: ds, r)
    else ([], c :: rest)

def digitsVal (ds : List Char) : Nat :=
  ds.foldl (fun n c => n * 10 + (c.toNat - '0'.toNat)) 0

def find_last_chapter_number : List Char → Nat
  | [] => 0
  | c :: rest =>
    let tailMax := find_last_chapter_number rest
    if c = '第' then
      match takeDigits rest with
      | ([], _) => tailMax
      | (ds, r) =>
        match r with
        | '章' :: _ =>
          if digitsVal ds < 2 ^ 32 then Nat.max (digitsVal ds) tailMax else tailMax
        | _ => tailMax
    else tailMax

def find_last_chapter_number_str (s : String) : Nat :=
  find_last_chapter_number s.data

/-! ## SSE byte-stream decoding (the loop body of stream_generate)

The Rust loop turns each raw chunk into text with String::from_utf8_lossy,
iterates chunk_str.lines(), and handles every line starting with the prefix
data-colon-space.  No state is kept between chunks: a line split across two
chunks is processed as two separate fragments. -/

/-- Continuation byte test for UTF-8 decoding. -/
def isCont (b : Nat) : Bool := 0x80 ≤ b && b < 0xC0

def repChar : Char := Char.ofNat 0xFFFD

/-- Admissible range of the second byte for a given 3- or 4-byte lead,
as enforced by core::str::validations (overlong and surrogate guards). -/
def secondRange (b : Nat) : Nat × Nat :=
  if b = 0xE0 then (0xA0, 0xBF)
  else if b = 0xED then (0x80, 0x9F)
  else if b = 0xF0 then (0x90, 0xBF)
  else if b = 0xF4 then (0x80, 0x8F)
  else (0x80, 0xBF)

/-- Model of String::from_utf8_lossy: decode UTF-8, replacing each maximal
invalid subpart with U+FFFD.  Fuel-based recursion; every step consumes at
least one byte, so fuel equal to the byte count never runs out. -/
def lossyAux : Nat → List Nat → List Char
  | 0, _ => []
  | _, [] => []
  | fuel + 1, b :: rest =>
    if b < 0x80 then Char.ofNat b :: lossyAux fuel rest
    else if 0xC2 ≤ b && b ≤ 0xDF then
      match rest with
      | c :: rest2 =>
        if isCont c then
          Char.ofNat ((b - 0xC0) * 64 + (c - 0x80)) :: lossyAux fuel rest2
        else repChar :: lossyAux fuel rest
      | [] => [repChar]
    else if 0xE0 ≤ b && b ≤ 0xEF then
      match rest with
      | c :: rest2 =>
        if (secondRange b).1 ≤ c && c ≤ (secondRange b).2 then
          match rest2 with
          | d :: rest3 =>
            if isCont d then
              Char.ofNat ((b - 0xE0) * 4096 + (c - 0x80) * 64 + (d - 0x80)) ::
                lossyAux fuel rest3
            else repChar :: lossyAux fuel rest2
          | [] => [repChar]
        else repChar :: lossyAux fuel rest
      | [] => [repChar]
    else if 0xF0 ≤ b && b ≤ 0xF4 then
      match rest with
      | c :: rest2 =>
        if (secondRange b).1 ≤ c && c ≤ (secondRange b).2 then
          match rest2 with
          | d :: rest3 =>
            if isCont d then
              match rest3 with
              | e :: rest4 =>
                if isCont e then
                  Char.ofNat ((b - 0xF0) * 262144 + (c - 0x80) * 4096 +
                      (d - 0x80) * 64 + (e - 0x80)) :: lossyAux fuel rest4
                else repChar :: lossyAux fuel rest3
              | [] => [repChar]
            else repChar :: lossyAux fuel rest2
          | [] => [repChar]
        else repChar :: lossyAux fuel rest
      | [] => [repChar]
    else repChar :: lossyAux fuel rest

def fromUtf8Lossy (bs : List Nat) : List Char := lossyAux bs.length bs

/-- UTF-8 encoder, used to build concrete byte chunks from readable text. -/
def charUtf8Bytes (c : Char) : List Nat :=
  let n := c.toNat
  if n < 0x80 then [n]
  else if n < 0x800 then [0xC0 + n / 64, 0x80 + n % 64]
  else if n < 0x10000 then [0xE0 + n / 4096, 0x80 + n / 64 % 64, 0x80 + n % 64]
  else [0xF0 + n / 262144, 0x80 + n / 4096 % 64, 0x80 + n / 64 % 64, 0x80 + n % 64]

def strBytes (s : String) : List Nat := (s.data.map charUtf8Bytes).flatten

/-- Model of str::split_inclusive with separator newline. -/
def splitInclusiveNl : List Char → List (List Char)
  | [] => []
  | c :: rest =>
    if c = '\n' then [c] :: splitInclusiveNl rest
    else
      match splitInclusiveNl rest with
      | [] => [[c]]
      | l :: ls => (c :: l) :: ls

/-- Model of the per-line map of str::lines: strip one trailing newline, and
if one was stripped also strip one trailing carriage return. -/
def linesMap (l : List Char) : List Char :=
  match l.getLast? with
  | some x =>
    if x = '\n' then
      let l1 := l.dropLast
      match l1.getLast? with
      | some y => if y = '\r' then l1.dropLast else l1
      | none => l1
    else l
  | none => l

/-- Model of str::lines. -/
def rustLines (s : List Char) : List (List Char) := (splitInclusiveNl s).map linesMap

/-! ## JSON parsing (model of serde_json::from_str for StreamResponse)

The derived Deserialize for StreamResponse requires a JSON document shaped as
an object with a required choices array; each choice is an object with a
required delta object (optional content string) and an optional
finish_reason; unknown fields are ignored, duplicates of a known field are
an error, and any trailing non-whitespace after the document is an error. -/

inductive Json where
  | null : Json
  | jbool : Bool → Json
  | jnum : String → Json
  | jstr : String → Json
  | jarr : List Json → Json
  | jobj : List (String × Json) → Json

def jsonWs (c : Char) : Bool := c = ' ' || c = '\t' || c = '\n' || c = '\r'

def skipWs : List Char → List Char
  | [] => []
  | c :: rest => if jsonWs c then skipWs rest else c :: rest

def hexVal (c : Char) : Option Nat :=
  if '0' ≤ c ∧ c ≤ '9' then some (c.toNat - '0'.toNat)
  else if 'a' ≤ c ∧ c ≤ 'f' then some (c.toNat - 'a'.toNat + 10)
  else if 'A' ≤ c ∧ c ≤ 'F' then some (c.toNat - 'A'.toNat + 10)
  else none

def parseHex4 : List Char → Option (Nat × List Char)
  | a :: b :: c :: d :: rest => do
    let va ← hexVal a
    let vb ← hexVal b
    let vc ← hexVal c
    let vd ← hexVal d
    some (va * 4096 + vb * 256 + vc * 16 + vd, rest)
  | _ => none

/-- JSON string body after the opening quote: escapes, surrogate pairs
(lone surrogates are an error, as in serde_json), and a ban on raw control
characters below 0x20. -/
def parseStringBody : Nat → List Char → List Char → Option (String × List Char)
  | 0, _, _ => none
  | fuel + 1, acc, cs =>
    match cs with
    | [] => none
    | '"' :: rest => some (String.mk acc.reverse, rest)
    | '\\' :: e :: rest =>
      match e with
      | '"' => parseStringBody fuel ('"' :: acc) rest
      | '\\' => parseStringBody fuel ('\\' :: acc) rest
      | '/' => parseStringBody fuel ('/' :: acc) rest
      | 'b' => parseStringBody fuel (Char.ofNat 8 :: acc) rest
      | 'f' => parseStringBody fuel (Char.ofNat 12 :: acc) rest
      | 'n' => parseStringBody fuel ('\n' :: acc) rest
      | 'r' => parseStringBody fuel ('\r' :: acc) rest
      | 't' => parseStringBody fuel ('\t' :: acc) rest
      | 'u' =>
        match parseHex4 rest with
        | none => none
        | some (n1, r1) =>
          if 0xD800 ≤ n1 ∧ n1 ≤ 0xDBFF then
            match r1 with
            | '\\' :: 'u' :: r2 =>
              match parseHex4 r2 with
              | some (n2, r3) =>
                if 0xDC00 ≤ n2 ∧ n2 ≤ 0xDFFF then
                  parseStringBody fuel
                    (Char.ofNat (0x10000 + (n1 - 0xD800) * 1024 + (n2 - 0xDC00)) :: acc) r3
                else none
              | none => none
            | _ => none
          else if 0xDC00 ≤ n1 ∧ n1 ≤ 0xDFFF then none
          else parseStringBody fuel (Char.ofNat n1 :: acc) r1
      | _ => none
    | c :: rest =>
      if c.toNat < 0x20 then none else parseStringBody fuel (c :: acc) rest

/-- JSON fraction part: either absent or a dot followed by at least one digit. -/
def parseFrac : List Char → Option (List Char × List Char)
  | '.' :: r =>
    (match takeDigits r with
     | ([], _) => none
     | (ds, r2) => some ('.' :: ds, r2))
  | cs => some ([], cs)

/-- JSON exponent part: either absent or e/E, optional sign, at least one digit. -/
def parseExp : List Char → Option (List Char × List Char)
  | c :: r =>
    if c = 'e' ∨ c = 'E' then
      let (sgn, r1) :=
        match r with
        | '+' :: rr => (['+'], rr)
        | '-' :: rr => (['-'], rr)
        | _ => (([] : List Char), r)
      match takeDigits r1 with
      | ([], _) => none
      | (ds, r2) => some (c :: (sgn ++ ds), r2)
    else some ([], c :: r)
  | [] => some ([], [])

/-- JSON number token (grammar only; the value is kept as its text). -/
def parseNumber (cs : List Char) : Option (String × List Char) :=
  let (sign, cs1) :=
    match cs with
    | '-' :: r => ((['-'] : List Char), r)
    | _ => (([] : List Char), cs)
  match cs1 with
  | '0' :: r => do
    let (fp, r3) ← parseFrac r
    let (ep, r4) ← parseExp r3
    some (String.mk (sign ++ ['0'] ++ fp ++ ep), r4)
  | c :: r =>
    if isAsciiDigit c then do
      let (ds, r2) := takeDigits r
      let (fp, r3) ← parseFrac r2
      let (ep, r4) ← parseExp r3
      some (String.mk (sign ++ (c :: ds) ++ fp ++ ep), r4)
    else none
  | [] => none

mutual

def parseValue : Nat → List Char → Option (Json × List Char)
  | 0, _ => none
  | fuel + 1, cs =>
    match skipWs cs with
    | 'n' :: 'u' :: 'l' :: 'l' :: rest => some (Json.null, rest)
    | 't' :: 'r' :: 'u' :: 'e' :: rest => some (Json.jbool true, rest)
    | 'f' :: 'a' :: 'l' :: 's' :: 'e' :: rest => some (Json.jbool false, rest)
    | '"' :: rest =>
      (match parseStringBody fuel [] rest with
       | some (s, r) => some (Json.jstr s, r)
       | none => none)
    | '[' :: rest =>
      (match skipWs rest with
       | ']' :: r => some (Json.jarr [], r)
       | _ =>
         match parseElemsRest fuel rest with
         | some (vs, r) => some (Json.jarr vs, r)
         | none => none)
    | '{' :: rest =>
      (match skipWs rest with
       | '}' :: r => some (Json.jobj [], r)
       | _ =>
         match parseMembersRest fuel rest with
         | some (ms, r) => some (Json.jobj ms, r)
         | none => none)
    | cs2 =>
      match parseNumber cs2 with
      | some (s, r) => some (Json.jnum s, r)
      | none => none

def parseElemsRest : Nat → List Char → Option (List Json × List Char)
  | 0, _ => none
  | fuel + 1, cs =>
    match parseValue fuel cs with
    | none => none
    | some (v, r) =>
      match skipWs r with
      | ',' :: r2 =>
        (match parseElemsRest fuel r2 with
         | some (vs, r3) => some (v :: vs, r3)
         | none => none)
      | ']' :: r2 => some ([v], r2)
      | _ => none

def parseMembersRest : Nat → List Char → Option (List (String × Json) × List Char)
  | 0, _ => none
  | fuel + 1, cs =>
    match skipWs cs with
    | '"' :: r =>
      (match parseStringBody fuel [] r with
       | none => none
       | some (k, r1) =>
         match skipWs r1 with
         | ':' :: r2 =>
           (match parseValue fuel r2 with
            | none => none
            | some (v, r3) =>
              match skipWs r3 with
              | ',' :: r4 =>
                (match parseMembersRest fuel r4 with
                 | some (ms, r5) => some ((k, v) :: ms, r5)
                 | none => none)
              | '}' :: r4 => some ([(k, v)], r4)
              | _ => none)
         | _ => none)
    | _ => none

end

/-- Full-document parse: one value, then only whitespace may remain. -/
def parseJsonDoc (cs : List Char) : Option Json :=
  match parseValue (2 * cs.length + 2) cs with
  | none => none
  | some (v, rest) =>
    match skipWs rest with
    | [] => some v
    | _ => none

/-! ## The response DTOs of stream.rs -/

structure StreamDelta where
  content : Option String
deriving DecidableEq

structure StreamChoice where
  delta : StreamDelta
  finish_reason : Option String
deriving DecidableEq

structure StreamResponse where
  choices : List StreamChoice
deriving DecidableEq

def countKey (fs : List (String × Json)) (k : String) : Nat :=
  (fs.filter (fun p => p.1 == k)).length

def getKey (fs : List (String × Json)) (k : String) : Option Json :=
  (fs.find? (fun p => p.1 == k)).map (fun p => p.2)

/-- Optional string field: absent and null both give none, a string gives
some, any other shape is a deserialization error. -/
def decodeOptString : Option Json → Option (Option String)
  | none => some none
  | some Json.null => some none
  | some (Json.jstr s) => some (some s)
  | some _ => none

def decodeDelta : Json → Option StreamDelta
  | Json.jobj fs =>
    if 2 ≤ countKey fs "content" then none
    else (decodeOptString (getKey fs "content")).map StreamDelta.mk
  | _ => none

def decodeChoice : Json → Option StreamChoice
  | Json.jobj fs =>
    if 2 ≤ countKey fs "delta" ∨ 2 ≤ countKey fs "finish_reason" then none
    else
      match getKey fs "delta" with
      | none => none
      | some dj =>
        match decodeDelta dj with
        | none => none
        | some d =>
          match decodeOptString (getKey fs "finish_reason") with
          | none => none
          | some fr => some ⟨d, fr⟩
  | _ => none

def decodeResponse : Json → Option StreamResponse
  | Json.jobj fs =>
    if 2 ≤ countKey fs "choices" then none
    else
      match getKey fs "choices" with
      | some (Json.jarr xs) =>
        (match xs.mapM decodeChoice with
         | some cs => some ⟨cs⟩
         | none => none)
      | _ => none
  | _ => none

/-- Model of serde_json::from_str::<StreamResponse>. -/
def parseStreamResponse (cs : List Char) : Option StreamResponse :=
  match parseJsonDoc cs with
  | some v => decodeResponse v
  | none => none

/-! ## The decoding loop of stream_generate -/

structure DecodeState where
  full : String
  emitted : List String
deriving DecidableEq

/-- One line of the inner for-loop of stream_generate: a line is handled only
if it starts with the 6-byte prefix data-colon-space (the slice line[6..] is
char aligned because the prefix is ASCII); the [DONE] sentinel is skipped; an
unparseable payload is skipped; a parsed payload contributes
choices[0].delta.content, if present, to the transcript and the emissions. -/
def processLine (st : DecodeState) (line : List Char) : DecodeState :=
  if "data: ".data.isPrefixOf line then
    let data := line.drop 6
    if data = "[DONE]".data then st
    else
      match parseStreamResponse data with
      | some resp =>
        (match resp.choices.head? with
         | some choice =>
           match choice.delta.content with
           | some c => ⟨st.full ++ c, st.emitted ++ [c]⟩
           | none => st
         | none => st)
      | none => st
  else st

/-- One chunk of the while-loop body: lossy-decode the bytes, then process
each line.  Nothing is carried from one chunk to the next except DecodeState. -/
def processChunk (st : DecodeState) (chunk : List Nat) : DecodeState :=
  (rustLines (fromUtf8Lossy chunk)).foldl processLine st

/-- The decoding part of stream_generate over a whole chunk sequence,
starting from the empty transcript. -/
def runDecoder (chunks : List (List Nat)) : DecodeState :=
  chunks.foldl processChunk ⟨"", []⟩

def cancelMsg : String := "生成已被用户中断"

/-- Model of the while-let loop of stream_generate: before reading each
chunk the cancellation flag is consulted (index i in the schedule); a set
flag aborts with the cancellation error, a transport error aborts with the
read-failure error, and otherwise the chunk is decoded.  The second
component lists the deltas emitted to the window so far. -/
def stream_generate_loop :
    List (Except String (List Nat)) → (Nat → Bool) → Nat → DecodeState →
      Except String String × List String
  | [], _, _, st => (Except.ok st.full, st.emitted)
  | item :: rest, cancel, i, st =>
    if cancel i then (Except.error cancelMsg, st.emitted)
    else
      match item with
      | Except.error e => (Except.error ("读取流失败: " ++ e), st.emitted)
      | Except.ok chunk => stream_generate_loop rest cancel (i + 1) (processChunk st chunk)

/-! ## Prompt assembly of generate_outline_stream

Each definition concatenates the exact pieces of the corresponding Rust
format string, with the format arguments spliced in between. -/

structure GenerateOutlineStreamInput where
  title : String
  genre : String
  description : String
  target_chapters : Nat
  deepseek_key : String
  requirements : Option String

/-- Translation of build_outline_prompt from stream.rs. -/
def build_outline_prompt (input : GenerateOutlineStreamInput) : String :=
  "请为以下小说创建详细大纲：\n\n书名：" ++ input.title ++
  "\n题材：" ++ input.genre ++
  "\n简介：" ++ input.description ++
  "\n目标章节数：" ++ toString input.target_chapters ++
  "（必须严格按照这个数量生成章节大纲）\n\n" ++
  (match input.requirements with
   | some req => "特殊要求：" ++ req ++ "\n\n"
   | none => "") ++
  "【重要】请严格按照以下格式生成大纲，章节数必须恰好为" ++ toString input.target_chapters ++
  "章：\n\n## 故事梗概\n（200字左右的故事概述）\n\n## 核心冲突\n（主要矛盾和冲突描述）\n\n" ++
  "## 世界观设定\n（详细描述故事发生的世界背景、规则、势力分布、社会结构等，确保后续章节保持一致）\n\n" ++
  "### 基础设定\n- **时代背景**：故事发生的时代/纪元\n- **地理环境**：主要地点、城市、国家等\n" ++
  "- **社会结构**：权力体系、阶级划分、组织势力等\n- **特殊规则**：如有魔法/科技/超能力等特殊元素的规则\n\n" ++
  "### 重要势力\n（列出3-5个重要势力/组织及其特点）\n\n## 时间线事件\n" ++
  "（按时间顺序列出影响剧情的重要历史事件和关键节点，便于各章节保持时间一致性）\n\n" ++
  "### 历史事件（故事开始前）\n1. 【时间点】事件描述及影响\n2. ...\n\n" ++
  "### 剧情时间线（故事进行中）\n1. 【第X章时间点】关键事件\n2. ...\n\n## 主要角色\n\n" ++
  "### 1. 角色名称\n- **身份**：角色的身份定位\n- **性格**：性格特点描述\n- **背景**：背景故事简述\n" ++
  "- **动机**：角色的目标和动机\n\n### 2. 角色名称\n（同上格式，3-5个主要角色）\n\n## 三幕结构\n\n" ++
  "### 第一幕：起始（约占全书20%）\n（介绍主要人物、世界观，引出核心冲突）\n\n" ++
  "### 第二幕：发展与高潮（约占全书60%）\n（冲突升级、角色成长、多次转折）\n\n" ++
  "### 第三幕：结局（约占全书20%）\n（高潮对决、冲突解决、结局交代）\n\n## 章节大纲\n\n" ++
  "【必须生成恰好" ++ toString input.target_chapters ++
  "章，每章格式如下】\n\n### 第1章：章节标题\n- **时间**：本章发生的时间点\n- **目标**：本章要完成的剧情目标\n" ++
  "- **冲突**：本章的核心冲突或挑战\n- **结尾钩子**：吸引读者继续阅读的悬念\n\n### 第2章：章节标题\n...\n\n" ++
  "（以此类推，直到第" ++ toString input.target_chapters ++
  "章）\n\n请确保：\n1. 章节数量严格等于" ++ toString input.target_chapters ++
  "章\n2. 每章都有明确的剧情推进\n3. 章节之间逻辑连贯，时间线一致\n" ++
  "4. 世界观设定详细完整，便于后续章节参考\n5. 角色和势力格式便于系统解析\n"

/-- Translation of build_outline_system_prompt from stream.rs. -/
def build_outline_system_prompt (target_chapters : Nat) : String :=
  "你是一位专业的小说策划师和编剧。你的任务是根据用户提供的题材、风格和要求，创建详细的小说大纲。\n\n" ++
  "【核心要求】\n1. 章节数量必须严格等于用户指定的" ++ toString target_chapters ++
  "章，不能多也不能少\n2. 使用标准Markdown格式输出\n3. 角色、世界观、时间线信息必须按照指定格式，便于系统解析\n\n" ++
  "【内容要求】\n- 故事主线清晰，核心冲突明确\n- 世界观设定完整详细（时代背景、地理环境、社会结构、特殊规则、重要势力）\n" ++
  "- 时间线事件清晰（历史事件和剧情时间线），确保各章节时间一致\n- 每个主要角色都有完整的设定（身份、性格、背景、动机）\n" ++
  "- 三幕结构合理分配剧情节奏\n- 每章都有明确的时间点、目标、冲突和悬念钩子\n- 章节之间逻辑连贯，剧情层层递进\n\n" ++
  "【格式要求】\n- 使用 ## 作为一级标题（故事梗概、世界观设定、时间线事件、主要角色、章节大纲等）\n" ++
  "- 使用 ### 作为二级标题（角色名、章节标题、势力名等）\n- 使用 - **字段**：内容 格式列出详细信息\n" ++
  "- 确保格式统一，便于程序解析"

/-- The resume instruction embedded in the continuation prompt, reading:
continue generating from chapter next up to chapter target. -/
def continuation_instruction (next target : Nat) : String :=
  "从第" ++ toString next ++ "章继续生成，直到第" ++ toString target ++ "章"

/-- Translation of the continue_prompt format string built inside
generate_outline_stream: the tail of the transcript (at most 1500 bytes,
via get_last_n_chars) plus the instruction to resume from last + 1. -/
def continue_prompt (full : String) (last target : Nat) : String :=
  "请继续完成大纲的章节部分。\n\n【已生成内容的结尾】\n" ++ get_last_n_chars_str full 1500 ++
  "\n\n【续写要求】\n1. " ++ continuation_instruction (last + 1) target ++
  "\n2. 保持与前面相同的格式\n3. 每章格式：\n### 第X章：章节标题\n- **时间**：本章发生的时间点\n" ++
  "- **目标**：本章要完成的剧情目标\n- **冲突**：本章的核心冲突或挑战\n- **结尾钩子**：吸引读者继续阅读的悬念\n\n" ++
  "请直接从第" ++ toString (last + 1) ++ "章开始续写，不要重复已有内容："

/-- Translation of the continue_system format string. -/
def continue_system (last target : Nat) : String :=
  "你正在续写一份小说大纲。前面的内容已经生成了第1章到第" ++ toString last ++
  "章，现在需要继续生成剩余的章节（第" ++ toString (last + 1) ++ "章到第" ++ toString target ++
  "章）。\n\n请保持格式一致，直接续写章节内容，不要添加任何开头说明。"

/-- Translation of the progress note emitted to the window before each
continuation round.  It is emitted, never appended to full_content. -/
def progress_note (last target : Nat) : String :=
  "\n\n【系统：检测到大纲未完成（已生成到第" ++ toString last ++ "章，目标" ++ toString target ++
  "章），正在自动续写...】\n\n"

/-! ## The continuation controller of generate_outline_stream -/

def initial_max_tokens : Nat := 8000

def continuation_max_tokens : Nat := 6000

def max_continuations : Nat := 5

/-- One streaming request as issued to stream_generate: system prompt, user
prompt, window event name, and the max_tokens budget. -/
structure RelayCall where
  system : String
  user : String
  event : String
  max_tokens : Nat
deriving DecidableEq

def initial_call (input : GenerateOutlineStreamInput) : RelayCall :=
  ⟨build_outline_system_prompt input.target_chapters, build_outline_prompt input,
    "outline-stream", initial_max_tokens⟩

def continuation_call (full : String) (last target : Nat) : RelayCall :=
  ⟨continue_system last target, continue_prompt full last target, "outline-stream",
    continuation_max_tokens⟩

/-- Observable trace of one generate_outline_stream invocation: the returned
result, every stream_generate call issued, every progress note emitted, and
the accumulated transcript after the initial round and after each completed
continuation round. -/
structure OutlineTrace where
  result : Except String String
  calls : List RelayCall
  notes : List String
  transcripts : List String

/-- Translation of the for-loop of generate_outline_stream (for i in
0..max_continuations).  fuel is the number of remaining iterations, i the
loop index, full the accumulated transcript.  The environment env gives the
result of the continuation stream_generate call issued at index i; cancel
gives the value of CANCEL_FLAG observed at the top of iteration i.  Leaving
the loop with fuel exhausted or by the break returns Ok full. -/
def outlineLoop (env : Nat → Except String String) (cancel : Nat → Bool) (target : Nat) :
    Nat → Nat → String → OutlineTrace
  | 0, _, full => ⟨Except.ok full, [], [], []⟩
  | fuel + 1, i, full =>
    if cancel i then ⟨Except.error cancelMsg, [], [], []⟩
    else
      let last := find_last_chapter_number_str full
      if target ≤ last then ⟨Except.ok full, [], [], []⟩
      else
        let call := continuation_call full last target
        let note := progress_note last target
        match env i with
        | Except.error e => ⟨Except.error e, [call], [note], []⟩
        | Except.ok cont =>
          let t := outlineLoop env cancel target fuel (i + 1) (full ++ cont)
          ⟨t.result, call :: t.calls, note :: t.notes, (full ++ cont) :: t.transcripts⟩

/-- Translation of generate_outline_stream: after acquiring the generation
lock and resetting the cancellation flag, the initial stream_generate call
(budget 8000) produces full_content (initRes models its outcome), then the
continuation loop runs for at most max_continuations rounds. -/
def generate_outline_stream (input : GenerateOutlineStreamInput)
    (initRes : Except String String) (env : Nat → Except String String)
    (cancel : Nat → Bool) : OutlineTrace :=
  match initRes with
  | Except.error e => ⟨Except.error e, [initial_call input], [], []⟩
  | Except.ok full0 =>
    let t := outlineLoop env cancel input.target_chapters max_continuations 0 full0
    ⟨t.result, initial_call input :: t.calls, t.notes, full0 :: t.transcripts⟩

/-! ## Process-wide generation state (GENERATION_LOCK and CANCEL_FLAG)

A small interleaving model for two concurrent invocations of the tauri
commands.  Each task is one call of generate_outline_stream (or
generate_chapter_stream): it first awaits GENERATION_LOCK.lock() and stores
false into CANCEL_FLAG (acquire), then performs some number of relay rounds
while holding the guard (running r = r rounds still to go), and finally
drops the guard on any exit path: normal return (finish), or the
cancellation/error return (cancelExit).  cancelReq models the
cancel_generation command, callable at any time. -/

inductive Phase where
  | ready : Phase
  | running : Nat → Phase
  | finished : Phase
deriving DecidableEq

structure Sys where
  p1 : Phase
  p2 : Phase
  owner : Option Bool
  cancelFlag : Bool
deriving DecidableEq

def isRunning : Phase → Bool
  | Phase.running _ => true
  | _ => false

/-- Model of cancel_generation: CANCEL_FLAG.store(true), nothing else. -/
def requestCancel (s : Sys) : Sys := { s with cancelFlag := true }

inductive Step : Sys → Sys → Prop where
  | acquire1 (s : Sys) (r : Nat) (h1 : s.p1 = Phase.ready) (h2 : s.owner = none) :
      Step s ⟨Phase.running r, s.p2, some false, false⟩
  | acquire2 (s : Sys) (r : Nat) (h1 : s.p2 = Phase.ready) (h2 : s.owner = none) :
      Step s ⟨s.p1, Phase.running r, some true, false⟩
  | relay1 (s : Sys) (r : Nat) (h : s.p1 = Phase.running (r + 1)) :
      Step s ⟨Phase.running r, s.p2, s.owner, s.cancelFlag⟩
  | relay2 (s : Sys) (r : Nat) (h : s.p2 = Phase.running (r + 1)) :
      Step s ⟨s.p1, Phase.running r, s.owner, s.cancelFlag⟩
  | finish1 (s : Sys) (h : s.p1 = Phase.running 0) :
      Step s ⟨Phase.finished, s.p2, none, s.cancelFlag⟩
  | finish2 (s : Sys) (h : s.p2 = Phase.running 0) :
      Step s ⟨s.p1, Phase.finished, none, s.cancelFlag⟩
  | cancelExit1 (s : Sys) (r : Nat) (h : s.p1 = Phase.running r) (hc : s.cancelFlag = true) :
      Step s ⟨Phase.finished, s.p2, none, s.cancelFlag⟩
  | cancelExit2 (s : Sys) (r : Nat) (h : s.p2 = Phase.running r) (hc : s.cancelFlag = true) :
      Step s ⟨s.p1, Phase.finished, none, s.cancelFlag⟩
  | cancelReq (s : Sys) : Step s (requestCancel s)

def initSys : Sys := ⟨Phase.ready, Phase.ready, none, false⟩

inductive Reach : Sys → Prop where
  | init : Reach initSys
  | step (s s' : Sys) (h : Reach s) (hs : Step s s') : Reach s'

/-- Mutual-exclusion invariant: a task whose relay loop is running holds the
generation lock. -/
def SysInv (s : Sys) : Prop :=
  (isRunning s.p1 = true → s.owner = some false)
  ∧ (isRunning s.p2 = true → s.owner = some true)

/-- Statement helper: the transcript obtained from full after k further
successful continuation rounds whose outputs are given by c from index i0. -/
def appendOutputs (c : Nat → String) : Nat → Nat → String → String
  | _, 0, full => full
  | i0, k + 1, full => appendOutputs c (i0 + 1) k (full ++ c i0)

/-! ## Lemmas about byte boundaries and get_last_n_chars -/

theorem byteLen_cons (c : Char) (rest : List Char) :
    byteLen (c :: rest) = c.utf8Size + byteLen rest := by
  simp [byteLen]

theorem is_char_boundary_zero (cs : List Char) : is_char_boundary cs 0 = true := by
  cases cs <;> simp [is_char_boundary]

theorem findStart_boundary (cs : List Char) (i : Nat) :
    is_char_boundary cs (findStart cs i) = true := by
  induction i with
  | zero => simpa [findStart] using is_char_boundary_zero cs
  | succ k ih =>
    by_cases h : is_char_boundary cs (k + 1) = true
    · simp [findStart, h]
    · simpa [findStart, h] using ih

theorem findStart_le (cs : List Char) (i : Nat) : findStart cs i ≤ i := by
  induction i with
  | zero => simp [findStart]
  | succ k ih =>
    by_cases h : is_char_boundary cs (k + 1) = true
    · simp [findStart, h]
    · simp only [findStart, if_neg h]
      exact Nat.le_trans ih (Nat.le_succ k)

theorem le_findStart_of_boundary (cs : List Char) (i j : Nat)
    (hj : is_char_boundary cs j = true) (hle : j ≤ i) : j ≤ findStart cs i := by
  induction i with
  | zero => simpa [findStart] using hle
  | succ k ih =>
    by_cases h : is_char_boundary cs (k + 1) = true
    · simpa [findStart, h] using hle
    · have hjk : j ≤ k := by
        rcases Nat.lt_or_ge j (k + 1) with h1 | h2
        · omega
        · have heq : j = k + 1 := by omega
          rw [heq] at hj
          exact absurd hj h
      simp only [findStart, if_neg h]
      exact ih hjk

theorem boundary_cons_of_add (c : Char) (rest : List Char) (j : Nat)
    (hj : is_char_boundary rest j = true) :
    is_char_boundary (c :: rest) (c.utf8Size + j) = true := by
  simp only [is_char_boundary, Bool.or_eq_true, Bool.and_eq_true, beq_iff_eq,
    decide_eq_true_eq]
  right
  exact ⟨Nat.le_add_right _ _, by rwa [Nat.add_sub_cancel_left]⟩

theorem exists_boundary_near (cs : List Char) :
    ∀ i, i ≤ byteLen cs → ∃ j, is_char_boundary cs j = true ∧ j ≤ i ∧ i ≤ j + 3 := by
  induction cs with
  | nil =>
    intro i hi
    have h0 : i = 0 := by simpa [byteLen] using hi
    exact ⟨0, by simp [is_char_boundary], by omega, by omega⟩
  | cons c rest ih =>
    intro i hi
    rcases Nat.lt_or_ge i c.utf8Size with hlt | hge
    · have h4 : c.utf8Size ≤ 4 := c.utf8Size_le_four
      exact ⟨0, is_char_boundary_zero _, Nat.zero_le i, by omega⟩
    · have hrest : i - c.utf8Size ≤ byteLen rest := by
        rw [byteLen_cons] at hi; omega
      obtain ⟨j, hbj, hji, hij⟩ := ih (i - c.utf8Size) hrest
      exact ⟨c.utf8Size + j, boundary_cons_of_add c rest j hbj, by omega, by omega⟩

theorem findStart_ge (cs : List Char) (i : Nat) (hi : i ≤ byteLen cs) :
    i ≤ findStart cs i + 3 := by
  obtain ⟨j, hbj, hji, hij⟩ := exists_boundary_near cs i hi
  have hjf := le_findStart_of_boundary cs i j hbj hji
  omega

theorem boundary_cons_dest (c : Char) (rest : List Char) (j : Nat)
    (hb : is_char_boundary (c :: rest) j = true) (h0 : j ≠ 0) :
    c.utf8Size ≤ j ∧ is_char_boundary rest (j - c.utf8Size) = true := by
  simp only [is_char_boundary, Bool.or_eq_true, Bool.and_eq_true, beq_iff_eq,
    decide_eq_true_eq] at hb
  rcases hb with h | h
  · exact absurd h h0
  · exact h

theorem byteDrop_suffix (cs : List Char) (j : Nat)
    (hb : is_char_boundary cs j = true) : byteDrop cs j <:+ cs := by
  induction cs generalizing j with
  | nil => simp [byteDrop]
  | cons c rest ih =>
    by_cases h0 : j = 0
    · subst h0
      simp [byteDrop]
    · obtain ⟨h1, h2⟩ := boundary_cons_dest c rest j hb h0
      rw [byteDrop, if_neg h0]
      exact (ih _ h2).trans (List.suffix_cons c rest)

theorem byteLen_byteDrop (cs : List Char) (j : Nat)
    (hb : is_char_boundary cs j = true) :
    byteLen (byteDrop cs j) = byteLen cs - j := by
  induction cs generalizing j with
  | nil =>
    have h0 : j = 0 := by simpa [is_char_boundary] using hb
    subst h0
    simp [byteDrop]
  | cons c rest ih =>
    by_cases h0 : j = 0
    · subst h0
      simp [byteDrop]
    · obtain ⟨h1, h2⟩ := boundary_cons_dest c rest j hb h0
      rw [byteDrop, if_neg h0, ih _ h2, byteLen_cons]
      omega

theorem get_last_n_chars_suffix (s : List Char) (n : Nat) :
    get_last_n_chars s n <:+ s := by
  by_cases h : byteLen s ≤ n
  · simp [get_last_n_chars, h]
  · simp only [get_last_n_chars, if_neg h]
    exact byteDrop_suffix s _ (findStart_boundary s _)

theorem byteLen_get_last_n_chars_le (s : List Char) (n : Nat) :
    byteLen (get_last_n_chars s n) ≤ n + 3 := by
  by_cases h : byteLen s ≤ n
  · simp only [get_last_n_chars, if_pos h]
    omega
  · have hb := findStart_boundary s (byteLen s - n)
    have hlen := byteLen_byteDrop s _ hb
    have hge := findStart_ge s (byteLen s - n) (by omega)
    simp only [get_last_n_chars, if_neg h, hlen]
    omega

/-! ## Claim theorems about the SSE decoding loop -/

/-- C1: the claim fails on the code.  The decode loop of stream_generate is
chunk-split sensitive: it lossy-decodes and line-splits every chunk in
isolation, keeping no buffer between chunks.  Splitting one data line into
two byte chunks turns the first fragment into a line with an unparseable
JSON payload (silently dropped) and the second fragment into a line without
the data prefix (also dropped), so the split delivery emits no delta while
the single-chunk delivery of the same bytes emits the delta hi. -/
theorem C1_chunk_split_changes_deltas :
    (runDecoder [strBytes "data: \x7b\"choices\":[\x7b\"delta\":\x7b\"content\":\"hi\"",
        strBytes "\x7d\x7d]\x7d\n"]).emitted = []
    ∧ (runDecoder [strBytes "data: \x7b\"choices\":[\x7b\"delta\":\x7b\"content\":\"hi\"" ++
        strBytes "\x7d\x7d]\x7d\n"]).emitted = ["hi"]
    ∧ runDecoder [strBytes "data: \x7b\"choices\":[\x7b\"delta\":\x7b\"content\":\"hi\"",
        strBytes "\x7d\x7d]\x7d\n"] ≠
      runDecoder [strBytes "data: \x7b\"choices\":[\x7b\"delta\":\x7b\"content\":\"hi\"" ++
        strBytes "\x7d\x7d]\x7d\n"] :=
  ⟨by decide, by decide, by decide⟩

/-- C8: a DONE sentinel line and a data line whose payload fails to parse
each leave the decode state unchanged: no delta is produced, no error is
raised, and the fold simply continues with the next line. -/
theorem C8_done_and_bad_json_skipped :
    (∀ st : DecodeState, processLine st "data: [DONE]".data = st)
    ∧ (∀ (st : DecodeState) (payload : List Char),
        parseStreamResponse payload = none →
        processLine st ("data: ".data ++ payload) = st) := by
  constructor
  · intro st
    rfl
  · intro st payload h
    have hpre : "data: ".data.isPrefixOf ("data: ".data ++ payload) = true := by
      rw [List.isPrefixOf_iff_prefix]
      exact List.prefix_append _ _
    have hdrop : ("data: ".data ++ payload).drop 6 = payload := by
      have h6 : ("data: ".data).length = 6 := by decide
      rw [← h6, List.drop_left]
    by_cases hdone : payload = "[DONE]".data
    · subst hdone
      simp [processLine, hpre, hdrop]
    · simp [processLine, hpre, hdrop, hdone, h]

/-- Witness for C8 at a concrete unparseable payload and nonempty state. -/
theorem C8_done_and_bad_json_skipped_witness :
    parseStreamResponse "oops".data = none
    ∧ processLine ⟨"x", ["x"]⟩ ("data: ".data ++ "oops".data) = ⟨"x", ["x"]⟩ :=
  ⟨by decide, C8_done_and_bad_json_skipped.2 ⟨"x", ["x"]⟩ "oops".data (by decide)⟩

theorem stream_loop_cancel_aux (chunks : List (List Nat)) :
    ∀ (tail : List (Except String (List Nat))) (cancel : Nat → Bool)
      (i0 : Nat) (st : DecodeState),
      (∀ j, j < chunks.length → cancel (i0 + j) = false) →
      cancel (i0 + chunks.length) = true →
      tail ≠ [] →
      stream_generate_loop (chunks.map Except.ok ++ tail) cancel i0 st =
        (Except.error cancelMsg, (chunks.foldl processChunk st).emitted) := by
  induction chunks with
  | nil =>
    intro tail cancel i0 st hlow hk htail
    match tail with
    | [] => exact absurd rfl htail
    | item :: rest =>
      have hk0 : cancel i0 = true := by simpa using hk
      simp [stream_generate_loop, hk0]
  | cons ch chunks ih =>
    intro tail cancel i0 st hlow hk htail
    have h0 : cancel i0 = false := by simpa using hlow 0 (by simp)
    have hstep :
        stream_generate_loop ((ch :: chunks).map Except.ok ++ tail) cancel i0 st =
          stream_generate_loop (chunks.map Except.ok ++ tail) cancel (i0 + 1)
            (processChunk st ch) := by
      simp [stream_generate_loop, h0]
    rw [hstep, List.foldl_cons]
    apply ih tail cancel (i0 + 1) (processChunk st ch)
    · intro j hj
      have h := hlow (j + 1) (by simp; omega)
      have harith : i0 + (j + 1) = i0 + 1 + j := by omega
      rwa [harith] at h
    · have harith : i0 + (ch :: chunks).length = i0 + 1 + chunks.length := by
        simp
        omega
      rwa [harith] at hk
    · exact htail

/-- C5: if the cancellation flag is first observed set at the chunk boundary
after the first k chunks, the relay loop stops there: items after the flag
check are never decoded, the call returns the cancellation error, and the
emissions made for the first k chunks are exactly what was already delivered
(nothing is rolled back).  The second conjunct shows the guard is released on
this exit path: from any state whose task is mid-relay with the flag set, the
cancel-exit step moves the task to finished with the lock owner cleared. -/
theorem C5_cancellation_mid_stream
    (chunks : List (List Nat)) (item : Except String (List Nat))
    (rest : List (Except String (List Nat))) (cancel : Nat → Bool)
    (hlow : ∀ j, j < chunks.length → cancel j = false)
    (hk : cancel chunks.length = true) :
    stream_generate_loop (chunks.map Except.ok ++ item :: rest) cancel 0 ⟨"", []⟩ =
      (Except.error cancelMsg, (runDecoder chunks).emitted)
    ∧ (∀ (s : Sys) (r : Nat), s.p1 = Phase.running r → s.cancelFlag = true →
        Step s ⟨Phase.finished, s.p2, none, s.cancelFlag⟩) := by
  constructor
  · have h := stream_loop_cancel_aux chunks (item :: rest) cancel 0 ⟨"", []⟩
      (fun j hj => by simpa using hlow j hj) (by simpa using hk) (by simp)
    exact h
  · intro s r h hc
    exact Step.cancelExit1 s r h hc

/-- Witness for C5: one chunk carrying the delta hi is decoded, then the flag
set at index 1 aborts the loop before the second chunk; the prior emission
remains. -/
theorem C5_cancellation_mid_stream_witness :
    stream_generate_loop
        ([strBytes "data: \x7b\"choices\":[\x7b\"delta\":\x7b\"content\":\"hi\"\x7d\x7d]\x7d\n"].map
            Except.ok ++ [Except.ok [], Except.ok []])
        (fun i => decide (1 ≤ i)) 0 ⟨"", []⟩ =
      (Except.error cancelMsg, ["hi"]) := by
  have h := C5_cancellation_mid_stream
      [strBytes "data: \x7b\"choices\":[\x7b\"delta\":\x7b\"content\":\"hi\"\x7d\x7d]\x7d\n"]
      (Except.ok []) [Except.ok []] (fun i => decide (1 ≤ i))
      (by decide) (by decide)
  rw [h.1]
  have hemit :
      (runDecoder
        [strBytes "data: \x7b\"choices\":[\x7b\"delta\":\x7b\"content\":\"hi\"\x7d\x7d]\x7d\n"]).emitted =
        ["hi"] := by decide
  rw [hemit]

/-! ## Unfolding lemmas for the continuation loop -/

theorem outlineLoop_cancel_step (env : Nat → Except String String) (cancel : Nat → Bool)
    (target f i : Nat) (full : String) (hc : cancel i = true) :
    outlineLoop env cancel target (f + 1) i full =
      ⟨Except.error cancelMsg, [], [], []⟩ := by
  simp [outlineLoop, hc]

theorem outlineLoop_done_step (env : Nat → Except String String) (cancel : Nat → Bool)
    (target f i : Nat) (full : String)
    (hc : cancel i = false) (hm : target ≤ find_last_chapter_number_str full) :
    outlineLoop env cancel target (f + 1) i full = ⟨Except.ok full, [], [], []⟩ := by
  simp [outlineLoop, hc, hm]

theorem outlineLoop_error_step (env : Nat → Except String String) (cancel : Nat → Bool)
    (target f i : Nat) (full : String) (e : String)
    (hc : cancel i = false) (hm : find_last_chapter_number_str full < target)
    (he : env i = Except.error e) :
    outlineLoop env cancel target (f + 1) i full =
      ⟨Except.error e,
       [continuation_call full (find_last_chapter_number_str full) target],
       [progress_note (find_last_chapter_number_str full) target], []⟩ := by
  have hnot : ¬ target ≤ find_last_chapter_number_str full := by omega
  simp [outlineLoop, hc, hnot, he]

theorem outlineLoop_succ_step (env : Nat → Except String String) (cancel : Nat → Bool)
    (target f i : Nat) (full cont : String)
    (hc : cancel i = false)
    (hm : find_last_chapter_number_str full < target)
    (he : env i = Except.ok cont) :
    outlineLoop env cancel target (f + 1) i full =
      ⟨(outlineLoop env cancel target f (i + 1) (full ++ cont)).result,
       continuation_call full (find_last_chapter_number_str full) target ::
         (outlineLoop env cancel target f (i + 1) (full ++ cont)).calls,
       progress_note (find_last_chapter_number_str full) target ::
         (outlineLoop env cancel target f (i + 1) (full ++ cont)).notes,
       (full ++ cont) ::
         (outlineLoop env cancel target f (i + 1) (full ++ cont)).transcripts⟩ := by
  have hnot : ¬ target ≤ find_last_chapter_number_str full := by omega
  simp [outlineLoop, hc, hnot, he]

theorem outlineLoop_exhaust (env : Nat → Except String String) (cancel : Nat → Bool)
    (target : Nat) (c : Nat → String)
    (henv : ∀ j, env j = Except.ok (c j)) (hcancel : ∀ j, cancel j = false) :
    ∀ (fuel i0 : Nat) (full : String),
      (∀ k, k < fuel →
        find_last_chapter_number_str (appendOutputs c i0 k full) < target) →
      (outlineLoop env cancel target fuel i0 full).result =
          Except.ok (appendOutputs c i0 fuel full)
        ∧ (outlineLoop env cancel target fuel i0 full).calls.length = fuel := by
  intro fuel
  induction fuel with
  | zero =>
    intro i0 full hlow
    exact ⟨rfl, rfl⟩
  | succ f ih =>
    intro i0 full hlow
    have h0 : find_last_chapter_number_str full < target := hlow 0 (Nat.succ_pos f)
    rw [outlineLoop_succ_step env cancel target f i0 full (c i0) (hcancel i0) h0 (henv i0)]
    have hrec := ih (i0 + 1) (full ++ c i0)
      (fun k hk => hlow (k + 1) (Nat.succ_lt_succ hk))
    exact ⟨hrec.1, by simp [hrec.2]⟩

/-! ## Claim theorems about the continuation controller -/

/-- C2: with no cancellation, no stream errors, and a transcript that never
reaches the target chapter count, generate_outline_stream performs exactly
max_continuations = 5 continuation calls after the initial call (6 calls in
all) and returns the accumulated transcript as Ok, not as an error. -/
theorem C2_budget_exhausted_is_ok (input : GenerateOutlineStreamInput)
    (full0 : String) (c : Nat → String) (env : Nat → Except String String)
    (cancel : Nat → Bool)
    (henv : ∀ j, env j = Except.ok (c j)) (hcancel : ∀ j, cancel j = false)
    (hlow : ∀ k, k < max_continuations →
      find_last_chapter_number_str (appendOutputs c 0 k full0) < input.target_chapters) :
    (generate_outline_stream input (Except.ok full0) env cancel).result =
        Except.ok (appendOutputs c 0 max_continuations full0)
    ∧ (generate_outline_stream input (Except.ok full0) env cancel).calls.length =
        max_continuations + 1 := by
  have h := outlineLoop_exhaust env cancel input.target_chapters c henv hcancel
      max_continuations 0 full0 hlow
  refine ⟨h.1, ?_⟩
  have hcalls : (generate_outline_stream input (Except.ok full0) env cancel).calls =
      initial_call input ::
        (outlineLoop env cancel input.target_chapters max_continuations 0 full0).calls := rfl
  rw [hcalls, List.length_cons, h.2]

/-- Witness for C2: empty outputs never reach the target of one chapter, so
all five continuation rounds run and the result is still Ok. -/
theorem C2_budget_exhausted_is_ok_witness :
    (generate_outline_stream ⟨"t", "g", "d", 1, "k", none⟩ (Except.ok "")
        (fun _ => Except.ok "") (fun _ => false)).result =
      Except.ok (appendOutputs (fun _ => "") 0 max_continuations "")
    ∧ (generate_outline_stream ⟨"t", "g", "d", 1, "k", none⟩ (Except.ok "")
        (fun _ => Except.ok "") (fun _ => false)).calls.length =
      max_continuations + 1 :=
  C2_budget_exhausted_is_ok ⟨"t", "g", "d", 1, "k", none⟩ "" (fun _ => "")
    (fun _ => Except.ok "") (fun _ => false) (fun _ => rfl) (fun _ => rfl) (by decide)

/-- C3: whenever a round starts with the scanned maximum m below the target
and no cancellation, the continuation call placed at the head of the trace
carries the prompt built from m: it embeds the instruction to resume from
chapter m + 1 through the target, and its context is get_last_n_chars of the
transcript with bound 1500 — a suffix of the transcript of at most 1503
bytes. -/
theorem C3_continuation_prompt_resumes (env : Nat → Except String String)
    (cancel : Nat → Bool) (target fuel i : Nat) (full : String)
    (hc : cancel i = false)
    (hm : find_last_chapter_number_str full < target) :
    (outlineLoop env cancel target (fuel + 1) i full).calls.head? =
        some (continuation_call full (find_last_chapter_number_str full) target)
    ∧ (continuation_instruction (find_last_chapter_number_str full + 1) target).data <:+:
        (continue_prompt full (find_last_chapter_number_str full) target).data
    ∧ (get_last_n_chars_str full 1500).data <:+ full.data
    ∧ byteLen (get_last_n_chars_str full 1500).data ≤ 1503 := by
  have hnot : ¬ target ≤ find_last_chapter_number_str full := by omega
  refine ⟨?_, ?_, ?_, ?_⟩
  · cases he : env i with
    | error e =>
      rw [outlineLoop_error_step env cancel target fuel i full e hc hm he]
      rfl
    | ok cont =>
      rw [outlineLoop_succ_step env cancel target fuel i full cont hc hm he]
      rfl
  · have hdecomp :
        (continue_prompt full (find_last_chapter_number_str full) target).data =
          ("请继续完成大纲的章节部分。\n\n【已生成内容的结尾】\n" ++
            get_last_n_chars_str full 1500 ++ "\n\n【续写要求】\n1. ").data ++
          (continuation_instruction (find_last_chapter_number_str full + 1) target).data ++
          ("\n2. 保持与前面相同的格式\n3. 每章格式：\n### 第X章：章节标题\n- **时间**：本章发生的时间点\n" ++
            "- **目标**：本章要完成的剧情目标\n- **冲突**：本章的核心冲突或挑战\n- **结尾钩子**：吸引读者继续阅读的悬念\n\n" ++
            "请直接从第" ++ toString (find_last_chapter_number_str full + 1) ++
            "章开始续写，不要重复已有内容：").data := by
      simp only [continue_prompt, String.data_append, List.append_assoc]
    rw [hdecomp]
    exact List.infix_append _ _ _
  · exact get_last_n_chars_suffix full.data 1500
  · exact byteLen_get_last_n_chars_le full.data 1500

/-- Witness for C3 at the spec example: markers up to chapter 7 with target
10 produce a prompt asking to continue from chapter 8 through chapter 10. -/
theorem C3_continuation_prompt_resumes_witness :
    (outlineLoop (fun _ => Except.ok "") (fun _ => false) 10 1 0 "第1章第7章").calls.head? =
        some (continuation_call "第1章第7章" 7 10)
    ∧ ("从第8章继续生成，直到第10章").data <:+:
        (continue_prompt "第1章第7章" 7 10).data := by
  have h := C3_continuation_prompt_resumes (fun _ => Except.ok "") (fun _ => false)
      10 0 0 "第1章第7章" (by decide) (by decide)
  exact ⟨h.1, h.2.1⟩

/-- C4 counterexample: on a run with one continuation round, the budgets of
the issued calls are 8000 for the initial call and 6000 for the continuation
call, and 6000 is not greater than 8000 — refuting the claim that every
continuation call uses a budget strictly greater than the initial call. -/
theorem C4_counterexample_budget_smaller :
    ((generate_outline_stream ⟨"t", "g", "d", 1, "k", none⟩ (Except.ok "")
        (fun _ => Except.ok "第1章") (fun _ => false)).calls.map RelayCall.max_tokens) =
      [initial_max_tokens, continuation_max_tokens]
    ∧ ¬ (continuation_max_tokens > initial_max_tokens) :=
  ⟨by decide, by decide⟩

/-- C4 amended: every continuation round is issued with the fixed budget
continuation_max_tokens = 6000, which is strictly smaller than the initial
budget initial_max_tokens = 8000, and the output of the round is appended
directly onto the transcript. -/
theorem C4_amended_continuation_budget (env : Nat → Except String String)
    (cancel : Nat → Bool) (target fuel i : Nat) (full cont : String)
    (hc : cancel i = false)
    (hm : find_last_chapter_number_str full < target)
    (he : env i = Except.ok cont) :
    ((outlineLoop env cancel target (fuel + 1) i full).calls.head?.map
        RelayCall.max_tokens) = some continuation_max_tokens
    ∧ continuation_max_tokens < initial_max_tokens
    ∧ (outlineLoop env cancel target (fuel + 1) i full).transcripts.head? =
        some (full ++ cont) := by
  rw [outlineLoop_succ_step env cancel target fuel i full cont hc hm he]
  exact ⟨rfl, by decide, rfl⟩

/-- Witness for C4 amended at a concrete round. -/
theorem C4_amended_continuation_budget_witness :
    ((outlineLoop (fun _ => Except.ok "x") (fun _ => false) 1 1 0 "").calls.head?.map
        RelayCall.max_tokens) = some continuation_max_tokens
    ∧ continuation_max_tokens < initial_max_tokens
    ∧ (outlineLoop (fun _ => Except.ok "x") (fun _ => false) 1 1 0 "").transcripts.head? =
        some ("" ++ "x") :=
  C4_amended_continuation_budget (fun _ => Except.ok "x") (fun _ => false) 1 0 0 "" "x"
    rfl (by decide) rfl

/-! ## Transcript monotonicity -/

theorem outlineLoop_transcripts_chain (env : Nat → Except String String)
    (cancel : Nat → Bool) (target : Nat) :
    ∀ (fuel i0 : Nat) (full : String),
      List.Chain (fun a b : String => a.data <+: b.data) full
        (outlineLoop env cancel target fuel i0 full).transcripts := by
  intro fuel
  induction fuel with
  | zero =>
    intro i0 full
    exact List.Chain.nil
  | succ f ih =>
    intro i0 full
    by_cases hc : cancel i0 = true
    · rw [outlineLoop_cancel_step env cancel target f i0 full hc]
      exact List.Chain.nil
    · have hc' : cancel i0 = false := by simpa using hc
      by_cases hm : target ≤ find_last_chapter_number_str full
      · rw [outlineLoop_done_step env cancel target f i0 full hc' hm]
        exact List.Chain.nil
      · have hm' : find_last_chapter_number_str full < target := by omega
        cases he : env i0 with
        | error e =>
          rw [outlineLoop_error_step env cancel target f i0 full e hc' hm' he]
          exact List.Chain.nil
        | ok cont =>
          rw [outlineLoop_succ_step env cancel target f i0 full cont hc' hm' he]
          exact List.Chain.cons ⟨cont.data, (String.data_append full cont).symm⟩
            (ih (i0 + 1) (full ++ cont))

theorem outlineLoop_ok_mem (env : Nat → Except String String) (cancel : Nat → Bool)
    (target : Nat) :
    ∀ (fuel i0 : Nat) (full t : String),
      (outlineLoop env cancel target fuel i0 full).result = Except.ok t →
      t = full ∨ t ∈ (outlineLoop env cancel target fuel i0 full).transcripts := by
  intro fuel
  induction fuel with
  | zero =>
    intro i0 full t h
    have h' : (Except.ok full : Except String String) = Except.ok t := h
    exact Or.inl (Except.ok.inj h').symm
  | succ f ih =>
    intro i0 full t h
    by_cases hc : cancel i0 = true
    · rw [outlineLoop_cancel_step env cancel target f i0 full hc] at h
      exact Except.noConfusion h
    · have hc' : cancel i0 = false := by simpa using hc
      by_cases hm : target ≤ find_last_chapter_number_str full
      · rw [outlineLoop_done_step env cancel target f i0 full hc' hm] at h
        have h' : (Except.ok full : Except String String) = Except.ok t := h
        exact Or.inl (Except.ok.inj h').symm
      · have hm' : find_last_chapter_number_str full < target := by omega
        cases he : env i0 with
        | error e =>
          rw [outlineLoop_error_step env cancel target f i0 full e hc' hm' he] at h
          exact Except.noConfusion h
        | ok cont =>
          rw [outlineLoop_succ_step env cancel target f i0 full cont hc' hm' he] at h ⊢
          have h' : (outlineLoop env cancel target f (i0 + 1) (full ++ cont)).result =
              Except.ok t := h
          rcases ih (i0 + 1) (full ++ cont) t h' with h1 | h2
          · refine Or.inr ?_
            rw [h1]
            exact List.mem_cons_self _ _
          · exact Or.inr (List.mem_cons_of_mem _ h2)

theorem outlineLoop_transcripts_shape (env : Nat → Except String String)
    (cancel : Nat → Bool) (target : Nat) (c : Nat → String)
    (henv : ∀ j, env j = Except.ok (c j)) :
    ∀ (fuel i0 : Nat) (full t : String),
      t ∈ (outlineLoop env cancel target fuel i0 full).transcripts →
      ∃ k, t = appendOutputs c i0 k full := by
  intro fuel
  induction fuel with
  | zero =>
    intro i0 full t h
    exact absurd h (List.not_mem_nil t)
  | succ f ih =>
    intro i0 full t h
    by_cases hc : cancel i0 = true
    · rw [outlineLoop_cancel_step env cancel target f i0 full hc] at h
      exact absurd h (List.not_mem_nil t)
    · have hc' : cancel i0 = false := by simpa using hc
      by_cases hm : target ≤ find_last_chapter_number_str full
      · rw [outlineLoop_done_step env cancel target f i0 full hc' hm] at h
        exact absurd h (List.not_mem_nil t)
      · have hm' : find_last_chapter_number_str full < target := by omega
        rw [outlineLoop_succ_step env cancel target f i0 full (c i0) hc' hm' (henv i0)] at h
        rcases List.mem_cons.mp h with h1 | h2
        · exact ⟨1, h1⟩
        · obtain ⟨k, hk⟩ := ih (i0 + 1) (full ++ c i0) t h2
          exact ⟨k + 1, hk⟩

/-- C7: the recorded transcripts only grow (each is a prefix of the next),
any Ok result is one of the recorded transcripts, and every recorded
transcript is the initial content followed by the concatenation of the
continuation outputs; the progress notes are collected separately in
trace.notes and never enter a transcript. -/
theorem C7_transcript_monotone (input : GenerateOutlineStreamInput)
    (full0 : String) (c : Nat → String) (env : Nat → Except String String)
    (cancel : Nat → Bool) (henv : ∀ j, env j = Except.ok (c j)) :
    List.Chain' (fun a b : String => a.data <+: b.data)
        (generate_outline_stream input (Except.ok full0) env cancel).transcripts
    ∧ (∀ t, (generate_outline_stream input (Except.ok full0) env cancel).result =
          Except.ok t →
        t ∈ (generate_outline_stream input (Except.ok full0) env cancel).transcripts)
    ∧ (∀ t, t ∈ (generate_outline_stream input (Except.ok full0) env cancel).transcripts →
        ∃ k, t = appendOutputs c 0 k full0) := by
  have htr : (generate_outline_stream input (Except.ok full0) env cancel).transcripts =
      full0 ::
        (outlineLoop env cancel input.target_chapters max_continuations 0 full0).transcripts :=
    rfl
  have hres : (generate_outline_stream input (Except.ok full0) env cancel).result =
      (outlineLoop env cancel input.target_chapters max_continuations 0 full0).result := rfl
  refine ⟨?_, ?_, ?_⟩
  · rw [htr]
    exact outlineLoop_transcripts_chain env cancel input.target_chapters
      max_continuations 0 full0
  · intro t h
    rw [hres] at h
    rcases outlineLoop_ok_mem env cancel input.target_chapters
        max_continuations 0 full0 t h with h1 | h2
    · rw [htr, h1]
      exact List.mem_cons_self _ _
    · rw [htr]
      exact List.mem_cons_of_mem _ h2
  · intro t h
    rw [htr] at h
    rcases List.mem_cons.mp h with h1 | h2
    · exact ⟨0, h1⟩
    · exact outlineLoop_transcripts_shape env cancel input.target_chapters c henv
        max_continuations 0 full0 t h2

/-- Witness for C7 at a concrete run with one continuation round. -/
theorem C7_transcript_monotone_witness :
    List.Chain' (fun a b : String => a.data <+: b.data)
        (generate_outline_stream ⟨"t", "g", "d", 1, "k", none⟩ (Except.ok "")
            (fun _ => Except.ok "第1章") (fun _ => false)).transcripts :=
  (C7_transcript_monotone ⟨"t", "g", "d", 1, "k", none⟩ "" (fun _ => "第1章")
      (fun _ => Except.ok "第1章") (fun _ => false) (fun _ => rfl)).1

/-! ## Mutual exclusion of the generation lock -/

theorem step_preserves_inv (s s' : Sys) (hs : Step s s') (hi : SysInv s) : SysInv s' := by
  cases hs with
  | acquire1 r h1 h2 =>
    refine ⟨fun _ => rfl, fun hr2 => ?_⟩
    have h := hi.2 hr2
    rw [h2] at h
    exact absurd h (by simp)
  | acquire2 r h1 h2 =>
    refine ⟨fun hr1 => ?_, fun _ => rfl⟩
    have h := hi.1 hr1
    rw [h2] at h
    exact absurd h (by simp)
  | relay1 r h =>
    refine ⟨fun _ => ?_, fun hr2 => ?_⟩
    · exact hi.1 (by rw [h]; rfl)
    · exact hi.2 hr2
  | relay2 r h =>
    refine ⟨fun hr1 => ?_, fun _ => ?_⟩
    · exact hi.1 hr1
    · exact hi.2 (by rw [h]; rfl)
  | finish1 h =>
    refine ⟨fun hr1 => ?_, fun hr2 => ?_⟩
    · simp [isRunning] at hr1
    · have ha := hi.1 (by rw [h]; rfl)
      have hb := hi.2 hr2
      rw [ha] at hb
      exact absurd hb (by simp)
  | finish2 h =>
    refine ⟨fun hr1 => ?_, fun hr2 => ?_⟩
    · have ha := hi.2 (by rw [h]; rfl)
      have hb := hi.1 hr1
      rw [ha] at hb
      exact absurd hb (by simp)
    · simp [isRunning] at hr2
  | cancelExit1 r h hc =>
    refine ⟨fun hr1 => ?_, fun hr2 => ?_⟩
    · simp [isRunning] at hr1
    · have ha := hi.1 (by rw [h]; rfl)
      have hb := hi.2 hr2
      rw [ha] at hb
      exact absurd hb (by simp)
  | cancelExit2 r h hc =>
    refine ⟨fun hr1 => ?_, fun hr2 => ?_⟩
    · have ha := hi.2 (by rw [h]; rfl)
      have hb := hi.1 hr1
      rw [ha] at hb
      exact absurd hb (by simp)
    · simp [isRunning] at hr2
  | cancelReq =>
    exact ⟨fun hr1 => hi.1 hr1, fun hr2 => hi.2 hr2⟩

theorem reach_inv (s : Sys) (h : Reach s) : SysInv s := by
  induction h with
  | init =>
    exact ⟨fun h1 => by simp [initSys, isRunning] at h1,
           fun h2 => by simp [initSys, isRunning] at h2⟩
  | step s s' hr hs ih => exact step_preserves_inv s s' hs ih

/-- C6: in every reachable state of the two-task model at most one task is
inside its relay loop — the second caller cannot start streaming until the
first has released GENERATION_LOCK, so no two relay loops run concurrently. -/
theorem C6_single_flight (s : Sys) (h : Reach s) :
    ¬ (isRunning s.p1 = true ∧ isRunning s.p2 = true) := by
  rintro ⟨h1, h2⟩
  have hi := reach_inv s h
  have ha := hi.1 h1
  have hb := hi.2 h2
  rw [ha] at hb
  exact absurd hb (by simp)

/-- Witness for C6 at the initial state. -/
theorem C6_single_flight_witness :
    ¬ (isRunning initSys.p1 = true ∧ isRunning initSys.p2 = true) :=
  C6_single_flight initSys Reach.init

/-- C9: requesting cancellation any number of times while idle changes no
generation state (phases and lock owner are untouched), and whenever a task
subsequently acquires the slot the acquire step itself stores false into the
cancellation flag, so the next generation starts with the signal not set. -/
theorem C9_cancel_idle_noop (s : Sys) (n : Nat) :
    ((requestCancel^[n] s).p1 = s.p1 ∧ (requestCancel^[n] s).p2 = s.p2
      ∧ (requestCancel^[n] s).owner = s.owner)
    ∧ (∀ r : Nat, (requestCancel^[n] s).p1 = Phase.ready →
        (requestCancel^[n] s).owner = none →
        Step (requestCancel^[n] s)
          ⟨Phase.running r, (requestCancel^[n] s).p2, some false, false⟩) := by
  constructor
  · induction n with
    | zero => exact ⟨rfl, rfl, rfl⟩
    | succ k ih =>
      rw [Function.iterate_succ_apply']
      exact ⟨by simp [requestCancel, ih.1], by simp [requestCancel, ih.2.1],
        by simp [requestCancel, ih.2.2]⟩
  · intro r h1 h2
    exact Step.acquire1 _ r h1 h2

/-- Witness for C9: after three idle cancel requests the acquire step is
still enabled and lands in a state with the flag reset. -/
theorem C9_cancel_idle_noop_witness :
    Step (requestCancel^[3] initSys)
      ⟨Phase.running 2, (requestCancel^[3] initSys).p2, some false, false⟩ :=
  (C9_cancel_idle_noop initSys 3).2 2 (by decide) (by decide)

end NovelSeek

/-- C10: get_last_n_chars always returns a suffix of its input that starts on
a UTF-8 char boundary (the start index computed by the source is a boundary,
so the byte slice cannot panic); when the input has at most n bytes it is
returned whole, and otherwise the returned suffix keeps at least n and at
most n + 3 bytes — the bound n counts bytes, not characters. -/
theorem C10_get_last_n_chars_safe (s : List Char) (n : Nat) :
    (NovelSeek.byteLen s ≤ n → NovelSeek.get_last_n_chars s n = s)
    ∧ NovelSeek.get_last_n_chars s n <:+ s
    ∧ NovelSeek.is_char_boundary s
        (NovelSeek.findStart s (NovelSeek.byteLen s - n)) = true
    ∧ (n < NovelSeek.byteLen s →
        n ≤ NovelSeek.byteLen (NovelSeek.get_last_n_chars s n)
        ∧ NovelSeek.byteLen (NovelSeek.get_last_n_chars s n) ≤ n + 3) := by
  open NovelSeek in
  refine ⟨?_, ?_, findStart_boundary s _, ?_⟩
  · intro h
    simp [get_last_n_chars, h]
  · by_cases h : byteLen s ≤ n
    · simp [get_last_n_chars, h]
    · simp only [get_last_n_chars, if_neg h]
      exact byteDrop_suffix s _ (findStart_boundary s _)
  · intro h
    have hnot : ¬ byteLen s ≤ n := by omega
    have hb := findStart_boundary s (byteLen s - n)
    have hlen := byteLen_byteDrop s _ hb
    have hle := findStart_le s (byteLen s - n)
    have hge := findStart_ge s (byteLen s - n) (by omega)
    simp only [get_last_n_chars, if_neg hnot, hlen]
    omega

/-- Witness for C10 at a concrete multi-byte string: the hypothesis
n < byteLen s holds and the returned suffix obeys both byte bounds. -/
theorem C10_get_last_n_chars_safe_witness :
    4 < NovelSeek.byteLen "ab的cd".data
    ∧ (4 ≤ NovelSeek.byteLen (NovelSeek.get_last_n_chars "ab的cd".data 4)
        ∧ NovelSeek.byteLen (NovelSeek.get_last_n_chars "ab的cd".data 4) ≤ 4 + 3) :=
  ⟨by decide, (C10_get_last_n_chars_safe "ab的cd".data 4).2.2.2 (by decide)⟩

section SanityChecks

open NovelSeek

example : find_last_chapter_number_str "" = 0 := by decide
example : find_last_chapter_number_str "### 第1章：开端\n### 第7章：转折" = 7 := by decide
example : find_last_chapter_number_str "第10章 第3章" = 10 := by decide
example : find_last_chapter_number_str "第x章" = 0 := by decide
example : get_last_n_chars_str "hello" 3 = "llo" := by decide
example : get_last_n_chars_str "hello" 10 = "hello" := by decide
example : get_last_n_chars_str "ab的cd" 4 = "的cd" := by decide

example :
    parseStreamResponse
      "\x7b\"choices\":[\x7b\"delta\":\x7b\"content\":\"hi\"\x7d\x7d]\x7d".data =
      some ⟨[⟨⟨some "hi"⟩, none⟩]⟩ := by
  decide

example : parseStreamResponse "[DONE]".data = none := by decide

example : fromUtf8Lossy (strBytes "a的b") = "a的b".data := by decide

example : rustLines "a\r\nb\nc".data = ["a".data, "b".data, "c".data] := by decide

example :
    runDecoder [strBytes "data: \x7b\"choices\":[\x7b\"delta\":\x7b\"content\":\"hi\"\x7d\x7d]\x7d\n"] =
      ⟨"hi", ["hi"]⟩ := by
  decide

end SanityChecks
